import Mathlib

/-!
Shallow embedding of the sidecar RPC core in `src/src-tauri/src/lib.rs`
(crate `ohmycowork`): the line demultiplexer, the message classifier
(`handle_sidecar_output`), the request correlator state (`PendingRequests`),
and the `send_message` command's control flow.

Conventions of the embedding:
- JSON documents (`serde_json::Value` after a successful parse) are modelled
  by the inductive `Json`; a line that fails `serde_json::from_str` is
  represented as `none : Option Json`.
- The pending-call table `Mutex<HashMap<u64, oneshot::Sender<..>>>` is
  modelled as an association list `List (Nat × Nat)` with unique keys
  (an invariant proved below); the second component identifies the oneshot
  channel, which in the source is always the channel created by the
  `send_message` invocation that allocated the key, so channels are named
  by their call id.
- Byte chunks from the child process are `List Nat` (byte values);
  `String::from_utf8` is modelled by a strict UTF-8 decoder.
-/

/-- Model of a parsed `serde_json::Value`. Numbers are modelled as integers
(the protocol fields `id` and `code` are integral; documents containing
non-integral numbers are outside the model's universe). -/
inductive Json where
  | null
  | bool (b : Bool)
  | num (n : Int)
  | str (s : String)
  | arr (elems : List Json)
  | obj (fields : List (String × Json))

/-- First-match field lookup in a JSON object's field list (a parsed
`serde_json` map has unique keys, so first-match agrees with map lookup). -/
def lookupField : List (String × Json) → String → Option Json
  | [], _ => none
  | (k, v) :: rest, key => if k = key then some v else lookupField rest key

/-- `Value::get(key)`: `Some` only on objects carrying the key. -/
def jsonGet : Json → String → Option Json
  | Json.obj fs, key => lookupField fs key
  | _, _ => none

/-- `Value::as_str`. -/
def asStr : Json → Option String
  | Json.str s => some s
  | _ => none

/-- `value.get("event").and_then(|v| v.as_str())` from
`handle_sidecar_output` (lib.rs line 117). -/
def eventTag (v : Json) : Option String :=
  (jsonGet v "event").bind asStr

/-- Deserialization of a `u64` field (serde: integral, in `[0, 2^64)`). -/
def decodeU64 : Json → Option Nat
  | Json.num n => if 0 ≤ n ∧ n < 2 ^ 64 then some n.toNat else none
  | _ => none

/-- Deserialization of an `i32` field (serde: integral, in `[-2^31, 2^31)`). -/
def decodeI32 : Json → Option Int
  | Json.num n => if -2 ^ 31 ≤ n ∧ n < 2 ^ 31 then some n else none
  | _ => none

/-- Deserialization of a `String` field. -/
def decodeStr : Json → Option String
  | Json.str s => some s
  | _ => none

/-- serde semantics of an `Option<T>` struct field: missing field or `null`
is `None`; a present non-null value must decode as `T` or the whole struct
fails. -/
def decodeOptField (dec : Json → Option α) (fs : List (String × Json)) (key : String) :
    Option (Option α) :=
  match lookupField fs key with
  | none => some none
  | some Json.null => some none
  | some v =>
    match dec v with
    | none => none
    | some a => some (some a)

/-- `struct RpcError { code: i32, message: String }` (lib.rs lines 43-48). -/
structure RpcError where
  code : Int
  message : String
deriving DecidableEq

/-- Deserialization of `RpcError`: both fields required, unknown fields
ignored. -/
def decodeRpcError : Json → Option RpcError
  | Json.obj fs => do
    let c ← (lookupField fs "code").bind decodeI32
    let m ← (lookupField fs "message").bind decodeStr
    some ⟨c, m⟩
  | _ => none

/-- `struct RpcResponse { id: Option<u64>, result: Option<String>,
error: Option<RpcError> }` (lib.rs lines 36-41). -/
structure RpcResponse where
  id : Option Nat
  result : Option String
  error : Option RpcError
deriving DecidableEq

/-- serde deserialization of `RpcResponse` from a JSON document: must be an
object; each `Option` field is `None` when missing or `null`; a present
field of the wrong shape fails the whole decode; unknown fields ignored. -/
def decodeRpcResponse : Json → Option RpcResponse
  | Json.obj fs => do
    let i ← decodeOptField decodeU64 fs "id"
    let r ← decodeOptField decodeStr fs "result"
    let e ← decodeOptField decodeRpcError fs "error"
    some ⟨i, r, e⟩
  | _ => none

/-- `Result<String, String>` as returned through the oneshot channel and by
`send_message`. -/
inductive CallResult where
  | ok (s : String)
  | err (s : String)
deriving DecidableEq

/-- The pending-call table: key is the request id, value identifies the
oneshot sender stored under that key (named by the call id that created
it). -/
abbrev Table := List (Nat × Nat)

/-- `HashMap::remove(&id)`: returns the removed value (if any) and the
remaining table. Keys are unique in every reachable table, so removing the
first match models map removal. -/
def tableRemove : Table → Nat → Option Nat × Table
  | [], _ => (none, [])
  | (k, c) :: rest, id =>
    if k = id then (some c, rest)
    else
      let r := tableRemove rest id
      (r.1, (k, c) :: r.2)

/-- Observable effects of processing one stdout line: a Tauri `app.emit`
of an event, or a `tx.send` on the oneshot channel removed from the
table. -/
inductive Obs where
  | emit (eventName : String) (payload : Json)
  | send (ch : Nat) (r : CallResult)

/-- The fall-through half of `handle_sidecar_output` (lib.rs lines
129-144): try to parse as `RpcResponse`; on success with a present `id`,
remove the pending entry and send the outcome; `error` wins over `result`,
and an absent `result` becomes the empty string (`unwrap_or_default`). -/
def responseArm (tbl : Table) (v : Json) : Table × List Obs :=
  match decodeRpcResponse v with
  | none => (tbl, [])
  | some resp =>
    match resp.id with
    | none => (tbl, [])
    | some id =>
      match tableRemove tbl id with
      | (some ch, tbl') =>
        (tbl',
          [Obs.send ch
            (match resp.error with
             | some err => CallResult.err err.message
             | none => CallResult.ok (resp.result.getD ""))])
      | (none, tbl') => (tbl', [])

/-- `handle_sidecar_output` (lib.rs lines 110-145) on one demultiplexed
line. The input is the outcome of `serde_json::from_str::<Value>`: `none`
for a line that is not valid JSON (which subsumes the
`line.trim().is_empty()` early return, since whitespace does not parse, and
makes the second `from_str::<RpcResponse>` fail as well). A recognized
event tag (`agent_status`, `assistant_delta`) is emitted and processing
stops; any other document falls through to the response arm. -/
def handleLine (tbl : Table) (doc : Option Json) : Table × List Obs :=
  match doc with
  | none => (tbl, [])
  | some v =>
    match eventTag v with
    | some name =>
      if name = "agent_status" then (tbl, [Obs.emit "agent:status" v])
      else if name = "assistant_delta" then (tbl, [Obs.emit "agent:delta" v])
      else responseArm tbl v
    | none => responseArm tbl v

/-- Status of one `send_message` invocation: still parked on
`tokio::time::timeout(_, rx)`, or already returned with a result. -/
inductive CallerStatus where
  | awaiting
  | done (r : CallResult)
deriving DecidableEq

/-- Global state of the correlator: the `REQUEST_ID` counter (lib.rs
line 9, initialised to 1), the pending table, and the status of each
`send_message` invocation, keyed by its request id. -/
structure Sys where
  nextId : Nat
  table : Table
  callers : List (Nat × CallerStatus)
deriving DecidableEq

/-- First-match lookup in an association list keyed by `Nat`. -/
def alistLookup : List (Nat × α) → Nat → Option α
  | [], _ => none
  | (k, v) :: rest, id => if k = id then some v else alistLookup rest id

/-- Status of the caller that owns request `id`. -/
def getStatus (s : Sys) (id : Nat) : Option CallerStatus :=
  alistLookup s.callers id

/-- Delivery of `r` through the oneshot channel `ch`: the value reaches the
receiver only if the owning caller is still awaiting; a send against a
finished caller (receiver already dropped) is the `let _ = tx.send(..)`
no-op. The timeout arm uses the same shape: it flips an awaiting caller
to `done`. -/
def resolveCaller : List (Nat × CallerStatus) → Nat → CallResult → List (Nat × CallerStatus)
  | [], _, _ => []
  | (k, st) :: rest, ch, r =>
    (k, if k = ch ∧ st = CallerStatus.awaiting then CallerStatus.done r else st) ::
      resolveCaller rest ch r

/-- Apply the observable effects of one processed line to the callers:
`emit` does not touch the correlator; `send ch r` delivers through
channel `ch`. -/
def deliverObs (cs : List (Nat × CallerStatus)) : List Obs → List (Nat × CallerStatus)
  | [] => cs
  | Obs.send ch r :: rest => deliverObs (resolveCaller cs ch r) rest
  | Obs.emit _ _ :: rest => deliverObs cs rest

/-- The fixed per-request timeout: `Duration::from_secs(60)` at lib.rs
line 103. -/
def CALL_TIMEOUT_SECS : Nat := 60

/-- Atomic transitions of the system, interleaved arbitrarily:
- `callStart serErr up writeErr`: one `send_message` invocation up to its
  await point (lib.rs lines 63-100). `serErr = some e` models
  `serde_json::to_string` failing with message `e`; `up` is whether the
  sidecar child handle is present; `writeErr = some e` models
  `child.write` failing with message `e`.
- `line doc`: the background reader feeds one demultiplexed line to
  `handle_sidecar_output`.
- `timeoutFire id`: the 60-second `tokio::time::timeout` for call `id`
  elapses while the caller is still awaiting (lib.rs line 106).
- `terminated`: the reader receives `CommandEvent::Terminated` (worker
  exit, lib.rs lines 212-214), which only logs. -/
inductive SysAction where
  | callStart (serErr : Option String) (up : Bool) (writeErr : Option String)
  | line (doc : Option Json)
  | timeoutFire (id : Nat)
  | terminated

/-- One step of the system. `callStart` mirrors the source order:
`fetch_add` first, then serialization (early return on failure, before any
table access), then insertion of the oneshot sender into the pending table,
then the stdin write (early returns on failure leave the entry in place),
then the await. `timeoutFire` mirrors the `Err(_) => Err("Request timed
out")` arm: it returns to the caller but does not touch the table.
`terminated` mirrors the `CommandEvent::Terminated` arm: log only. -/
def applyAction (s : Sys) (a : SysAction) : Sys :=
  match a with
  | SysAction.callStart serErr up writeErr =>
    let id := s.nextId
    match serErr with
    | some e =>
      { s with nextId := id + 1,
               callers := (id, CallerStatus.done (CallResult.err e)) :: s.callers }
    | none =>
      let tbl := (id, id) :: s.table
      if up then
        match writeErr with
        | some e =>
          { nextId := id + 1, table := tbl,
            callers := (id, CallerStatus.done
              (CallResult.err ("Failed to write to sidecar: " ++ e))) :: s.callers }
        | none =>
          { nextId := id + 1, table := tbl,
            callers := (id, CallerStatus.awaiting) :: s.callers }
      else
        { nextId := id + 1, table := tbl,
          callers := (id, CallerStatus.done
            (CallResult.err "Sidecar not running")) :: s.callers }
  | SysAction.line doc =>
    let r := handleLine s.table doc
    { s with table := r.1, callers := deliverObs s.callers r.2 }
  | SysAction.timeoutFire id =>
    { s with callers := resolveCaller s.callers id (CallResult.err "Request timed out") }
  | SysAction.terminated => s

/-- Initial state: `REQUEST_ID` starts at 1, empty table, no calls. -/
def initSys : Sys := ⟨1, [], []⟩

/-- Run a finite interleaving of actions from the initial state. -/
def runTrace (acts : List SysAction) : Sys :=
  acts.foldl applyAction initSys

/-- Micro-events of one `send_message` invocation, in program order. -/
inductive SendEv where
  | fetchAdd (id : Nat)
  | insertPending (id : Nat)
  | writeReq (id : Nat)
  | awaitOutcome (id : Nat)
  | ret (r : CallResult)
deriving DecidableEq

/-- The ordered micro-event trace of `send_message` (lib.rs lines 52-108)
for a call allocated id `id`: `REQUEST_ID.fetch_add` (line 63);
serialization (line 79, early `?` return on failure with the error's
message); insertion into the pending table (line 87); the stdin write
(lines 93-99, early returns when the child handle is absent or the write
fails); then the await. -/
def sendMessageTrace (id : Nat) (serErr : Option String) (up : Bool)
    (writeErr : Option String) : List SendEv :=
  SendEv.fetchAdd id ::
    match serErr with
    | some e => [SendEv.ret (CallResult.err e)]
    | none =>
      SendEv.insertPending id ::
        if up then
          match writeErr with
          | some e => [SendEv.ret (CallResult.err ("Failed to write to sidecar: " ++ e))]
          | none => [SendEv.writeReq id, SendEv.awaitOutcome id]
        else [SendEv.ret (CallResult.err "Sidecar not running")]

/-- The effect of a micro-event trace on the pending table: only
`insertPending` mutates it. -/
def traceTableEffect (tbl : Table) : List SendEv → Table
  | [] => tbl
  | SendEv.insertPending id :: rest => traceTableEffect ((id, id) :: tbl) rest
  | _ :: rest => traceTableEffect tbl rest

/-- UTF-8 continuation byte: `0x80..=0xBF`. -/
def isCont (b : Nat) : Bool :=
  if 0x80 ≤ b ∧ b ≤ 0xBF then true else false

/-- Allowed second byte of a three-byte sequence, per strict UTF-8 (what
Rust's `String::from_utf8` accepts): `0xE0` requires `0xA0..=0xBF`
(no overlong forms), `0xED` requires `0x80..=0x9F` (no surrogates). -/
def cont3 (b b1 : Nat) : Bool :=
  if b = 0xE0 then (if 0xA0 ≤ b1 ∧ b1 ≤ 0xBF then true else false)
  else if b = 0xED then (if 0x80 ≤ b1 ∧ b1 ≤ 0x9F then true else false)
  else isCont b1

/-- Allowed second byte of a four-byte sequence: `0xF0` requires
`0x90..=0xBF` (no overlong forms), `0xF4` requires `0x80..=0x8F`
(max scalar `U+10FFFF`). -/
def cont4 (b b1 : Nat) : Bool :=
  if b = 0xF0 then (if 0x90 ≤ b1 ∧ b1 ≤ 0xBF then true else false)
  else if b = 0xF4 then (if 0x80 ≤ b1 ∧ b1 ≤ 0x8F then true else false)
  else isCont b1

/-- Strict UTF-8 decoding of a byte list, fuelled so that it is structural
(the fuel is always at least the list length at every call site). `none`
models `String::from_utf8` returning `Err`. -/
def utf8DecodeF : Nat → List Nat → Option (List Char)
  | _, [] => some []
  | 0, _ :: _ => none
  | f + 1, b :: rest =>
    if b ≤ 0x7F then (utf8DecodeF f rest).map (fun cs => Char.ofNat b :: cs)
    else if 0xC2 ≤ b ∧ b ≤ 0xDF then
      match rest with
      | b1 :: rest1 =>
        if isCont b1 then
          (utf8DecodeF f rest1).map
            (fun cs => Char.ofNat ((b - 0xC0) * 64 + (b1 - 0x80)) :: cs)
        else none
      | [] => none
    else if 0xE0 ≤ b ∧ b ≤ 0xEF then
      match rest with
      | b1 :: b2 :: rest2 =>
        if cont3 b b1 ∧ isCont b2 then
          (utf8DecodeF f rest2).map
            (fun cs =>
              Char.ofNat ((b - 0xE0) * 4096 + (b1 - 0x80) * 64 + (b2 - 0x80)) :: cs)
        else none
      | _ => none
    else if 0xF0 ≤ b ∧ b ≤ 0xF4 then
      match rest with
      | b1 :: b2 :: b3 :: rest3 =>
        if cont4 b b1 ∧ isCont b2 ∧ isCont b3 then
          (utf8DecodeF f rest3).map
            (fun cs =>
              Char.ofNat
                ((b - 0xF0) * 262144 + (b1 - 0x80) * 4096 + (b2 - 0x80) * 64
                  + (b3 - 0x80)) :: cs)
        else none
      | _ => none
    else none

/-- `String::from_utf8` on a byte chunk: `some` of the decoded text iff the
chunk is valid strict UTF-8. -/
def utf8Decode (bs : List Nat) : Option (List Char) :=
  utf8DecodeF bs.length bs

/-- `if line.ends_with('\r') { line.pop(); }` (lib.rs lines 189-191). -/
def stripCRl (l : List Char) : List Char :=
  if l.getLast? = some '\r' then l.dropLast else l

/-- `stdout_buf.find('\n')` together with the two slicings
`stdout_buf[..pos]` and `stdout_buf[pos + 1..]` (lib.rs lines 186-188):
the text before the first newline and the text after it, or `none` when
the buffer holds no newline. -/
def breakNL : List Char → Option (List Char × List Char)
  | [] => none
  | c :: rest =>
    if c = '\n' then some ([], rest)
    else (breakNL rest).map (fun p => (c :: p.1, p.2))

/-- The `while let Some(pos) = stdout_buf.find('\n')` loop (lib.rs lines
186-193), fuelled so that it is structural; the fuel is at least the
buffer length at every call site, which bounds the number of newlines.
Returns the emitted lines (carriage-return-stripped) in order, and the
residual buffer. -/
def drainLoop : Nat → List Char → List (List Char) × List Char
  | 0, buf => ([], buf)
  | f + 1, buf =>
    match breakNL buf with
    | none => ([], buf)
    | some (ln, rest) =>
      let r := drainLoop f rest
      (stripCRl ln :: r.1, r.2)

/-- One `CommandEvent::Stdout` chunk after UTF-8 decoding:
`stdout_buf.push_str(&chunk)` then the drain loop. Returns the emitted
lines and the new residual buffer. The `CommandEvent::Stderr` arm (lib.rs
lines 196-207) runs the identical algorithm on its own buffer. -/
def feedChunk (buf chunk : List Char) : List (List Char) × List Char :=
  drainLoop (buf ++ chunk).length (buf ++ chunk)

/-- One raw byte chunk: the `if let Ok(chunk) = String::from_utf8(..)`
guard (lib.rs line 184) drops the whole chunk when it is not valid UTF-8,
leaving the residual buffer untouched and emitting nothing. -/
def feedBytes (buf : List Char) (chunk : List Nat) : List (List Char) × List Char :=
  match utf8Decode chunk with
  | none => ([], buf)
  | some s => feedChunk buf s

/-- One iteration of the reader loop: feed the next byte chunk into the
residual buffer, appending the emitted lines to the accumulated output. -/
def demuxStep (acc : List (List Char) × List Char) (ch : List Nat) :
    List (List Char) × List Char :=
  let r := feedBytes acc.2 ch
  (acc.1 ++ r.1, r.2)

/-- Feed a whole sequence of byte chunks from an empty buffer, collecting
every emitted line in order; also returns the final residual buffer. -/
def runDemux (chunks : List (List Nat)) : List (List Char) × List Char :=
  chunks.foldl demuxStep ([], [])

/-- The byte-stream shape `L1\n L2\n ... Ln\n` from the claim: every line
followed by a newline terminator. -/
def joinLines (lines : List (List Char)) : List Char :=
  (lines.map (fun l => l ++ ['\n'])).flatten

/-- Specification-side characterisation of the drain loop, structural in
the buffer: the raw (un-stripped) segments before each newline, and the
residual after the last newline. Used only to prove properties of
`drainLoop`. -/
def splitNL : List Char → List (List Char) × List Char
  | [] => ([], [])
  | c :: rest =>
    if c = '\n' then ([] :: (splitNL rest).1, (splitNL rest).2)
    else
      match splitNL rest with
      | (l :: ls, r) => ((c :: l) :: ls, r)
      | ([], r) => ([], c :: r)

/-- Invariant of the correlator state: pending-table keys are pairwise
distinct, every key is below the counter, and every entry's channel is the
oneshot sender created by the call that allocated its key. -/
def SysInv (s : Sys) : Prop :=
  (s.table.map Prod.fst).Nodup ∧ ∀ p ∈ s.table, p.1 < s.nextId ∧ p.2 = p.1

/-- A document carrying one of the two recognized event tags (lib.rs lines
118, 122). -/
def isRecognizedEvent (v : Json) : Prop :=
  eventTag v = some "agent_status" ∨ eventTag v = some "assistant_delta"

instance (v : Json) : Decidable (isRecognizedEvent v) := by
  unfold isRecognizedEvent
  infer_instance

/-! ### Helper lemmas about the pending table and the correlator -/

theorem sysInv_init : SysInv initSys := by
  constructor
  · simp [initSys]
  · simp [initSys]

theorem sysInv_insert (s : Sys) (h : SysInv s) (cs : List (Nat × CallerStatus)) :
    SysInv ⟨s.nextId + 1, (s.nextId, s.nextId) :: s.table, cs⟩ := by
  obtain ⟨hnd, hbd⟩ := h
  constructor
  · simp only [List.map_cons]
    refine List.nodup_cons.mpr ⟨?_, hnd⟩
    intro hmem
    obtain ⟨p, hp, he⟩ := List.mem_map.mp hmem
    have := (hbd p hp).1
    omega
  · intro p hp
    rcases List.mem_cons.mp hp with h | h
    · subst h; exact ⟨Nat.lt_succ_self _, rfl⟩
    · obtain ⟨h1, h2⟩ := hbd p h
      exact ⟨Nat.lt_succ_of_lt h1, h2⟩

theorem tableRemove_snd_sublist (tbl : Table) (id : Nat) :
    (tableRemove tbl id).2.Sublist tbl := by
  induction tbl with
  | nil => simp [tableRemove]
  | cons p rest ih =>
    obtain ⟨k, c⟩ := p
    by_cases h : k = id
    · simp only [tableRemove, if_pos h]
      exact List.sublist_cons_self _ _
    · simpa [tableRemove, h] using List.Sublist.cons₂ (k, c) ih

theorem tableRemove_not_mem (tbl : Table) (id : Nat)
    (h : id ∉ tbl.map Prod.fst) : tableRemove tbl id = (none, tbl) := by
  induction tbl with
  | nil => rfl
  | cons p rest ih =>
    obtain ⟨k, c⟩ := p
    simp only [List.map_cons, List.mem_cons, not_or] at h
    have hk : k ≠ id := fun e => h.1 e.symm
    simp [tableRemove, hk, ih h.2]

theorem responseArm_fst_sublist (tbl : Table) (v : Json) :
    (responseArm tbl v).1.Sublist tbl := by
  unfold responseArm
  cases decodeRpcResponse v with
  | none => simp
  | some resp =>
    obtain ⟨rid, rres, rerr⟩ := resp
    cases rid with
    | none => simp
    | some id =>
      rcases h : tableRemove tbl id with ⟨o, t2⟩
      have ht : t2.Sublist tbl := by
        have := tableRemove_snd_sublist tbl id
        rwa [h] at this
      cases o <;> simpa [h] using ht

theorem handleLine_fst_sublist (tbl : Table) (doc : Option Json) :
    (handleLine tbl doc).1.Sublist tbl := by
  cases doc with
  | none => simp [handleLine]
  | some v =>
    rcases he : eventTag v with _ | name
    · simpa [handleLine, he] using responseArm_fst_sublist tbl v
    · by_cases h1 : name = "agent_status"
      · simp [handleLine, he, h1]
      · by_cases h2 : name = "assistant_delta"
        · simp [handleLine, he, h1, h2]
        · simpa [handleLine, he, h1, h2] using responseArm_fst_sublist tbl v

theorem alistLookup_resolveCaller_ne (cs : List (Nat × CallerStatus))
    (ch j : Nat) (r : CallResult) (h : j ≠ ch) :
    alistLookup (resolveCaller cs ch r) j = alistLookup cs j := by
  induction cs with
  | nil => rfl
  | cons p rest ih =>
    obtain ⟨k, st⟩ := p
    by_cases hk : k = j
    · subst hk
      have hc : ¬(k = ch ∧ st = CallerStatus.awaiting) := fun hx => h hx.1
      simp [resolveCaller, alistLookup, hc]
    · simp [resolveCaller, alistLookup, hk, ih]

theorem alistLookup_resolveCaller_awaiting (cs : List (Nat × CallerStatus))
    (ch : Nat) (r : CallResult)
    (h : alistLookup cs ch = some CallerStatus.awaiting) :
    alistLookup (resolveCaller cs ch r) ch = some (CallerStatus.done r) := by
  induction cs with
  | nil => cases h
  | cons p rest ih =>
    obtain ⟨k, st⟩ := p
    by_cases hk : k = ch
    · subst hk
      simp only [alistLookup, if_pos rfl] at h
      obtain rfl : st = CallerStatus.awaiting := Option.some.inj h
      simp [resolveCaller, alistLookup]
    · simp only [alistLookup, if_neg hk] at h
      have hc : ¬(k = ch ∧ st = CallerStatus.awaiting) := fun hx => hk hx.1
      simp [resolveCaller, alistLookup, hc, hk, ih h]

theorem alistLookup_resolveCaller_done (cs : List (Nat × CallerStatus))
    (ch : Nat) (r q : CallResult)
    (h : alistLookup cs ch = some (CallerStatus.done q)) :
    alistLookup (resolveCaller cs ch r) ch = some (CallerStatus.done q) := by
  induction cs with
  | nil => cases h
  | cons p rest ih =>
    obtain ⟨k, st⟩ := p
    by_cases hk : k = ch
    · subst hk
      simp only [alistLookup, if_pos rfl] at h
      obtain rfl : st = CallerStatus.done q := Option.some.inj h
      simp [resolveCaller, alistLookup]
    · simp only [alistLookup, if_neg hk] at h
      have hc : ¬(k = ch ∧ st = CallerStatus.awaiting) := fun hx => hk hx.1
      simp [resolveCaller, alistLookup, hc, hk, ih h]

theorem handleLine_not_event (tbl : Table) (v : Json) (h : ¬isRecognizedEvent v) :
    handleLine tbl (some v) = responseArm tbl v := by
  rcases he : eventTag v with _ | name
  · simp [handleLine, he]
  · have h1 : name ≠ "agent_status" := fun e => h (Or.inl (e ▸ he))
    have h2 : name ≠ "assistant_delta" := fun e => h (Or.inr (e ▸ he))
    simp [handleLine, he, h1, h2]

theorem responseArm_found (tbl : Table) (v : Json) (resp : RpcResponse) (i ch : Nat)
    (hD : decodeRpcResponse v = some resp) (hI : resp.id = some i)
    (hC : (tableRemove tbl i).1 = some ch) :
    responseArm tbl v =
      ((tableRemove tbl i).2,
        [Obs.send ch
          (match resp.error with
           | some err => CallResult.err err.message
           | none => CallResult.ok (resp.result.getD ""))]) := by
  obtain ⟨rid, rres, rerr⟩ := resp
  obtain rfl : rid = some i := hI
  rcases h : tableRemove tbl i with ⟨o, t2⟩
  rw [h] at hC
  obtain rfl : o = some ch := hC
  simp [responseArm, hD, h]

theorem responseArm_miss (tbl : Table) (v : Json) (resp : RpcResponse)
    (hD : decodeRpcResponse v = some resp)
    (hI : ∀ i, resp.id = some i → i ∉ tbl.map Prod.fst) :
    responseArm tbl v = (tbl, []) := by
  obtain ⟨rid, rres, rerr⟩ := resp
  cases rid with
  | none => simp [responseArm, hD]
  | some i =>
    have h := tableRemove_not_mem tbl i (hI i rfl)
    simp [responseArm, hD, h]

theorem deliverObs_done (obs : List Obs) :
    ∀ (cs : List (Nat × CallerStatus)) (id : Nat) (q : CallResult),
      alistLookup cs id = some (CallerStatus.done q) →
      alistLookup (deliverObs cs obs) id = some (CallerStatus.done q) := by
  induction obs with
  | nil => intro cs id q h; exact h
  | cons o rest ih =>
    intro cs id q h
    cases o with
    | emit name payload => exact ih cs id q h
    | send ch r =>
      by_cases hc : id = ch
      · subst hc
        exact ih _ id q (alistLookup_resolveCaller_done cs id r q h)
      · exact ih _ id q ((alistLookup_resolveCaller_ne cs ch id r hc).trans h)

theorem sysInv_step (s : Sys) (a : SysAction) (h : SysInv s) :
    SysInv (applyAction s a) := by
  obtain ⟨hnd, hbd⟩ := h
  cases a with
  | callStart serErr up writeErr =>
    cases serErr with
    | some e =>
      exact ⟨hnd, fun p hp => ⟨Nat.lt_succ_of_lt (hbd p hp).1, (hbd p hp).2⟩⟩
    | none =>
      cases up with
      | false => exact sysInv_insert s ⟨hnd, hbd⟩ _
      | true =>
        cases writeErr with
        | some e => exact sysInv_insert s ⟨hnd, hbd⟩ _
        | none => exact sysInv_insert s ⟨hnd, hbd⟩ _
  | line doc =>
    constructor
    · exact List.Nodup.sublist ((handleLine_fst_sublist s.table doc).map Prod.fst) hnd
    · intro p hp
      exact hbd p ((handleLine_fst_sublist s.table doc).subset hp)
  | timeoutFire id => exact ⟨hnd, hbd⟩
  | terminated => exact ⟨hnd, hbd⟩

theorem sysInv_run (acts : List SysAction) :
    ∀ s, SysInv s → SysInv (acts.foldl applyAction s) := by
  induction acts with
  | nil => intro s h; exact h
  | cons a rest ih => intro s h; exact ih _ (sysInv_step s a h)

theorem sysInv_runTrace (acts : List SysAction) : SysInv (runTrace acts) :=
  sysInv_run acts initSys sysInv_init

theorem table_entry_removed_only_by_line (s : Sys) (a : SysAction) (p : Nat × Nat)
    (hp : p ∈ s.table) (hq : p ∉ (applyAction s a).table) :
    ∃ doc, a = SysAction.line doc := by
  cases a with
  | callStart serErr up writeErr =>
    exfalso
    apply hq
    cases serErr with
    | some e => exact hp
    | none =>
      cases up with
      | false => exact List.mem_cons_of_mem _ hp
      | true =>
        cases writeErr with
        | some e => exact List.mem_cons_of_mem _ hp
        | none => exact List.mem_cons_of_mem _ hp
  | line doc => exact ⟨doc, rfl⟩
  | timeoutFire id => exact absurd hp hq
  | terminated => exact absurd hp hq

/-! ### Helper lemmas about the line demultiplexer -/

theorem breakNL_none (buf : List Char) (h : breakNL buf = none) :
    splitNL buf = ([], buf) := by
  induction buf with
  | nil => rfl
  | cons c rest ih =>
    by_cases hc : c = '\n'
    · simp [breakNL, hc] at h
    · simp only [breakNL, if_neg hc] at h
      rcases hb : breakNL rest with _ | p
      · simp [splitNL, hc, ih hb]
      · rw [hb] at h; simp at h

theorem breakNL_some (buf : List Char) :
    ∀ ln rest, breakNL buf = some (ln, rest) →
      splitNL buf = (ln :: (splitNL rest).1, (splitNL rest).2) ∧
        buf.length = ln.length + rest.length + 1 := by
  induction buf with
  | nil => intro ln rest h; cases h
  | cons c t ih =>
    intro ln rest h
    by_cases hc : c = '\n'
    · simp only [breakNL, if_pos hc, Option.some.injEq, Prod.mk.injEq] at h
      obtain ⟨h1, h2⟩ := h
      subst h1; subst h2; subst hc
      exact ⟨by simp [splitNL], by simp⟩
    · simp only [breakNL, if_neg hc] at h
      rcases ht : breakNL t with _ | ⟨l1, r1⟩
      · rw [ht] at h; cases h
      · rw [ht] at h
        simp only [Option.map_some', Option.some.injEq, Prod.mk.injEq] at h
        obtain ⟨h1, h2⟩ := h
        subst h1; subst h2
        obtain ⟨hs, hlen⟩ := ih l1 r1 ht
        refine ⟨?_, by simp [hlen]; omega⟩
        simp [splitNL, hc, hs]

theorem drainLoop_eq (f : Nat) :
    ∀ buf : List Char, buf.length ≤ f →
      drainLoop f buf = ((splitNL buf).1.map stripCRl, (splitNL buf).2) := by
  induction f with
  | zero =>
    intro buf h
    obtain rfl : buf = [] := List.length_eq_zero.mp (Nat.le_zero.mp h)
    rfl
  | succ f ih =>
    intro buf h
    rcases hb : breakNL buf with _ | ⟨ln, rest⟩
    · simp [drainLoop, hb, breakNL_none buf hb]
    · obtain ⟨hs, hlen⟩ := breakNL_some buf ln rest hb
      have hr : rest.length ≤ f := by omega
      simp [drainLoop, hb, hs, ih rest hr]

theorem feedChunk_eq (buf chunk : List Char) :
    feedChunk buf chunk =
      ((splitNL (buf ++ chunk)).1.map stripCRl, (splitNL (buf ++ chunk)).2) :=
  drainLoop_eq _ _ le_rfl

theorem splitNL_snd_noNL (x : List Char) : '\n' ∉ (splitNL x).2 := by
  induction x with
  | nil => simp [splitNL]
  | cons c t ih =>
    by_cases hc : c = '\n'
    · simpa [splitNL, hc] using ih
    · rcases h1 : splitNL t with ⟨ls, r⟩
      rw [h1] at ih
      cases ls with
      | nil =>
        simp only [splitNL, if_neg hc, h1, List.mem_cons, not_or]
        exact ⟨fun e => hc e.symm, ih⟩
      | cons l ls' =>
        simpa [splitNL, hc, h1] using ih

theorem splitNL_append (a : List Char) :
    ∀ b : List Char,
      splitNL (a ++ b) =
        ((splitNL a).1 ++ (splitNL ((splitNL a).2 ++ b)).1,
          (splitNL ((splitNL a).2 ++ b)).2) := by
  induction a with
  | nil => intro b; simp [splitNL]
  | cons c t ih =>
    intro b
    by_cases hc : c = '\n'
    · subst hc
      rw [List.cons_append]
      simp only [splitNL, if_pos rfl]
      rw [ih b]
      simp
    · rcases h1 : splitNL t with ⟨ls, r⟩
      have ihb := ih b
      rw [h1] at ihb
      dsimp only at ihb
      cases ls with
      | cons l ls' =>
        rw [List.cons_append] at ihb
        rw [List.cons_append]
        simp only [splitNL, if_neg hc, h1, ihb]
        simp
      | nil =>
        rw [List.nil_append] at ihb
        rw [List.cons_append]
        simp only [splitNL, if_neg hc, h1, ihb]
        simp only [List.nil_append, List.cons_append]
        rcases h2 : splitNL (r ++ b) with ⟨ms, q⟩
        cases ms with
        | nil => simp
        | cons m ms' => simp

theorem splitNL_noNL_prefix (L : List Char) (hL : '\n' ∉ L) :
    ∀ t : List Char, splitNL (L ++ '\n' :: t) = (L :: (splitNL t).1, (splitNL t).2) := by
  induction L with
  | nil => intro t; simp [splitNL]
  | cons c L' ih =>
    intro t
    have hc : c ≠ '\n' := fun e => hL (by simp [e])
    have hL' : '\n' ∉ L' := fun m => hL (List.mem_cons_of_mem _ m)
    simp [splitNL, hc, ih hL' t]

theorem splitNL_joinLines (lines : List (List Char))
    (h : ∀ l ∈ lines, '\n' ∉ l) : splitNL (joinLines lines) = (lines, []) := by
  induction lines with
  | nil => rfl
  | cons L rest ih =>
    have hL : '\n' ∉ L := h L (List.mem_cons_self _ _)
    have hrest : ∀ l ∈ rest, '\n' ∉ l := fun l hl => h l (List.mem_cons_of_mem _ hl)
    have : joinLines (L :: rest) = L ++ '\n' :: joinLines rest := by
      simp [joinLines]
    rw [this, splitNL_noNL_prefix L hL, ih hrest]

theorem splitNL_noNL (buf : List Char) (h : '\n' ∉ buf) : splitNL buf = ([], buf) := by
  induction buf with
  | nil => rfl
  | cons c t ih =>
    have hc : c ≠ '\n' := fun e => h (by simp [e])
    have ht : '\n' ∉ t := fun m => h (List.mem_cons_of_mem _ m)
    simp [splitNL, hc, ih ht]

theorem demuxFold_eq (chunks : List (List Nat)) :
    ∀ (decoded : List (List Char)), chunks.map utf8Decode = decoded.map some →
      ∀ (buf : List Char), '\n' ∉ buf → ∀ acc : List (List Char),
        chunks.foldl demuxStep (acc, buf) =
          (acc ++ (splitNL (buf ++ decoded.flatten)).1.map stripCRl,
            (splitNL (buf ++ decoded.flatten)).2) := by
  induction chunks with
  | nil =>
    intro decoded hdec buf hbuf acc
    obtain rfl : decoded = [] := by
      cases decoded with
      | nil => rfl
      | cons d ds => cases hdec
    simp [splitNL_noNL buf hbuf]
  | cons ch rest ih =>
    intro decoded hdec buf hbuf acc
    cases decoded with
    | nil => cases hdec
    | cons d ds =>
      simp only [List.map_cons, List.cons.injEq] at hdec
      obtain ⟨hd, hds⟩ := hdec
      have hstep : demuxStep (acc, buf) ch =
          (acc ++ (splitNL (buf ++ d)).1.map stripCRl, (splitNL (buf ++ d)).2) := by
        simp [demuxStep, feedBytes, hd, feedChunk_eq]
      rw [List.foldl_cons, hstep,
        ih ds hds _ (splitNL_snd_noNL _) _]
      have hflat : buf ++ (d :: ds).flatten = (buf ++ d) ++ ds.flatten := by
        simp [List.append_assoc]
      rw [hflat, splitNL_append (buf ++ d) ds.flatten]
      simp [List.map_append, List.append_assoc]

/-! ### Claim theorems -/

/-- Claim C5 (confirmed): registration-before-write ordering. In every
execution of `send_message` whose micro-event trace contains the write of
the serialized request to the worker pipe, the insertion of the pending
entry keyed by the request id occurs strictly earlier in the trace. -/
theorem c5_registration_before_write (id : Nat) (serErr writeErr : Option String)
    (up : Bool)
    (h : SendEv.writeReq id ∈ sendMessageTrace id serErr up writeErr) :
    ∃ i j : Nat, i < j ∧
      (sendMessageTrace id serErr up writeErr)[i]? = some (SendEv.insertPending id) ∧
      (sendMessageTrace id serErr up writeErr)[j]? = some (SendEv.writeReq id) := by
  cases serErr with
  | some e => simp [sendMessageTrace] at h
  | none =>
    cases up with
    | false => simp [sendMessageTrace] at h
    | true =>
      cases writeErr with
      | some e => simp [sendMessageTrace] at h
      | none => exact ⟨1, 2, by omega, rfl, rfl⟩

/-- Witness for C5 at a concrete successful call. -/
theorem c5_registration_before_write_witness :
    ∃ i j : Nat, i < j ∧
      (sendMessageTrace 1 none true none)[i]? = some (SendEv.insertPending 1) ∧
      (sendMessageTrace 1 none true none)[j]? = some (SendEv.writeReq 1) :=
  c5_registration_before_write 1 none none true (by decide)

/-- Claim C8 (confirmed): serialization-failure atomicity. When
`serde_json::to_string` fails (the `?` at lib.rs line 79), `send_message`
returns the error's message to the caller and the trace contains no
pending-table insertion at all, so the table is left unchanged: the entry
is never inserted (rather than rolled back). -/
theorem c8_serialization_failure_atomic (id : Nat) (e : String) (up : Bool)
    (writeErr : Option String) (tbl : Table) :
    traceTableEffect tbl (sendMessageTrace id (some e) up writeErr) = tbl ∧
    SendEv.ret (CallResult.err e) ∈ sendMessageTrace id (some e) up writeErr ∧
    ∀ k, SendEv.insertPending k ∉ sendMessageTrace id (some e) up writeErr := by
  refine ⟨rfl, ?_, ?_⟩
  · simp [sendMessageTrace]
  · intro k; simp [sendMessageTrace]

/-- Claim C10 (confirmed): a stdout (or stderr) byte chunk that is not
valid UTF-8 is discarded whole by the `String::from_utf8` guard — no line
is emitted from it (even if it contains newline-terminated content) and
the residual buffer is exactly what it was before the chunk arrived. -/
theorem c10_invalid_utf8_chunk_dropped (buf : List Char) (chunk : List Nat)
    (h : utf8Decode chunk = none) :
    feedBytes buf chunk = ([], buf) := by
  simp [feedBytes, h]

/-- Witness for C10: the chunk `"h\n"` followed by the invalid byte `0xFF`
contains a complete newline-terminated line, yet nothing is emitted and
the buffer `"x"` is untouched. -/
theorem c10_invalid_utf8_chunk_dropped_witness :
    utf8Decode [104, 10, 255] = none ∧ feedBytes ['x'] [104, 10, 255] = ([], ['x']) :=
  ⟨by decide, c10_invalid_utf8_chunk_dropped ['x'] [104, 10, 255] (by decide)⟩

/-- Claim C2 (confirmed): correlation exclusivity and outcome mapping.
For a line that reaches the response arm (not a recognized-tag event),
decodes as an `RpcResponse`, and carries an `id` registered in the pending
table, the single observable effect is one send on the channel registered
under that id: a failure carrying the error object's `message` verbatim
when an `error` field is present, otherwise a success carrying the
`result` string (empty string when `result` is absent). At the system
level the outcome reaches exactly the caller owning that channel; every
other caller's status is untouched. -/
theorem c2_correlation_exclusivity (s : Sys) (doc : Json) (resp : RpcResponse)
    (i ch : Nat)
    (hN : ¬isRecognizedEvent doc)
    (hD : decodeRpcResponse doc = some resp)
    (hI : resp.id = some i)
    (hC : (tableRemove s.table i).1 = some ch) :
    handleLine s.table (some doc) =
      ((tableRemove s.table i).2,
        [Obs.send ch
          (match resp.error with
           | some err => CallResult.err err.message
           | none => CallResult.ok (resp.result.getD ""))]) ∧
    (getStatus s ch = some CallerStatus.awaiting →
      getStatus (applyAction s (SysAction.line (some doc))) ch =
        some (CallerStatus.done
          (match resp.error with
           | some err => CallResult.err err.message
           | none => CallResult.ok (resp.result.getD "")))) ∧
    ∀ j, j ≠ ch →
      getStatus (applyAction s (SysAction.line (some doc))) j = getStatus s j := by
  have h1 : handleLine s.table (some doc) =
      ((tableRemove s.table i).2,
        [Obs.send ch
          (match resp.error with
           | some err => CallResult.err err.message
           | none => CallResult.ok (resp.result.getD ""))]) :=
    (handleLine_not_event s.table doc hN).trans
      (responseArm_found s.table doc resp i ch hD hI hC)
  refine ⟨h1, ?_, ?_⟩
  · intro hw
    simp only [applyAction, getStatus, h1, deliverObs]
    exact alistLookup_resolveCaller_awaiting s.callers ch _ hw
  · intro j hj
    simp only [applyAction, getStatus, h1, deliverObs]
    exact alistLookup_resolveCaller_ne s.callers ch j _ hj

/-- Witness for C2: with calls 1 and 2 pending, the response for id 2
resolves caller 2 with `ok "ok"` while caller 1 stays awaiting. -/
theorem c2_correlation_exclusivity_witness :
    getStatus
        (applyAction ⟨3, [(1, 1), (2, 2)],
            [(1, CallerStatus.awaiting), (2, CallerStatus.awaiting)]⟩
          (SysAction.line
            (some (Json.obj [("id", Json.num 2), ("result", Json.str "ok")])))) 2 =
      some (CallerStatus.done (CallResult.ok "ok")) ∧
    getStatus
        (applyAction ⟨3, [(1, 1), (2, 2)],
            [(1, CallerStatus.awaiting), (2, CallerStatus.awaiting)]⟩
          (SysAction.line
            (some (Json.obj [("id", Json.num 2), ("result", Json.str "ok")])))) 1 =
      some CallerStatus.awaiting := by
  have h := c2_correlation_exclusivity
    ⟨3, [(1, 1), (2, 2)], [(1, CallerStatus.awaiting), (2, CallerStatus.awaiting)]⟩
    (Json.obj [("id", Json.num 2), ("result", Json.str "ok")])
    ⟨some 2, some "ok", none⟩ 2 2
    (by decide) (by decide) rfl (by decide)
  exact ⟨h.2.1 (by decide), (h.2.2 1 (by decide)).trans (by decide)⟩

/-- Counterexample to claim C4 as stated: the line
`{"event":"task_done","id":1,"result":"r"}` carries the string event tag
`task_done`, yet the classifier emits no Event for it; instead the line is
fed to the Response path, which even resolves pending call 1. Unrecognized
tags are not forwarded opaquely. -/
theorem c4_counterexample_unrecognized_tag_not_forwarded :
    handleLine [(1, 1)]
        (some (Json.obj
          [("event", Json.str "task_done"), ("id", Json.num 1),
            ("result", Json.str "r")])) =
      ([], [Obs.send 1 (CallResult.ok "r")]) := by
  rfl

/-- Claim C4 (corrected): only the two recognized tags are treated as
events. A document whose event tag is `agent_status` or `assistant_delta`
is emitted (as `agent:status` / `agent:delta` with the full document as
payload) and Response decoding is not attempted; a document with any other
string event tag is not emitted as an Event and falls through to the
Response-decoding path. -/
theorem c4_amended_recognized_tags_only (tbl : Table) (v : Json) :
    (eventTag v = some "agent_status" →
      handleLine tbl (some v) = (tbl, [Obs.emit "agent:status" v])) ∧
    (eventTag v = some "assistant_delta" →
      handleLine tbl (some v) = (tbl, [Obs.emit "agent:delta" v])) ∧
    ∀ name, eventTag v = some name → name ≠ "agent_status" →
      name ≠ "assistant_delta" → handleLine tbl (some v) = responseArm tbl v := by
  refine ⟨?_, ?_, ?_⟩
  · intro h; simp [handleLine, h]
  · intro h; simp [handleLine, h]
  · intro name h h1 h2; simp [handleLine, h, h1, h2]

/-- Witness for the amended C4: a recognized tag is emitted and stops
classification; an unrecognized tag falls through to the response arm. -/
theorem c4_amended_recognized_tags_only_witness :
    handleLine [(1, 1)]
        (some (Json.obj
          [("event", Json.str "agent_status"), ("state", Json.str "thinking")])) =
      ([(1, 1)],
        [Obs.emit "agent:status"
          (Json.obj
            [("event", Json.str "agent_status"), ("state", Json.str "thinking")])]) ∧
    handleLine [(2, 2)] (some (Json.obj [("event", Json.str "task_done")])) =
      responseArm [(2, 2)] (Json.obj [("event", Json.str "task_done")]) :=
  ⟨(c4_amended_recognized_tags_only [(1, 1)]
      (Json.obj [("event", Json.str "agent_status"), ("state", Json.str "thinking")])).1
      (by decide),
    (c4_amended_recognized_tags_only [(2, 2)]
      (Json.obj [("event", Json.str "task_done")])).2.2 "task_done"
      (by decide) (by decide) (by decide)⟩

/-- Claim C6 (confirmed): resolve is a no-op for absent or unknown ids.
A line that reaches the response arm and decodes as an `RpcResponse` whose
`id` is absent, or whose `id` is not a key of the pending table, produces
no observable effect and leaves the table unchanged; the model is a total
function, so no error is raised. -/
theorem c6_unknown_id_noop (tbl : Table) (doc : Json) (resp : RpcResponse)
    (hN : ¬isRecognizedEvent doc)
    (hD : decodeRpcResponse doc = some resp)
    (hI : ∀ i, resp.id = some i → i ∉ tbl.map Prod.fst) :
    handleLine tbl (some doc) = (tbl, []) :=
  (handleLine_not_event tbl doc hN).trans (responseArm_miss tbl doc resp hD hI)

/-- Witness for C6: the id-less readiness document `{"ready":true}` and a
response for the unknown id 7 both leave the table `[(1, 1)]` unchanged
and deliver nothing. -/
theorem c6_unknown_id_noop_witness :
    handleLine [(1, 1)] (some (Json.obj [("ready", Json.bool true)])) =
      ([(1, 1)], []) ∧
    handleLine [(1, 1)]
        (some (Json.obj [("id", Json.num 7), ("result", Json.str "late")])) =
      ([(1, 1)], []) :=
  ⟨c6_unknown_id_noop [(1, 1)] (Json.obj [("ready", Json.bool true)])
      ⟨none, none, none⟩ (by decide) (by decide)
      (by intro i h; cases h),
    c6_unknown_id_noop [(1, 1)]
      (Json.obj [("id", Json.num 7), ("result", Json.str "late")])
      ⟨some 7, some "late", none⟩ (by decide) (by decide)
      (by intro i h; injection h with h2; subst h2; decide)⟩

/-- Claim C7 (confirmed): timeout behaviour. If a caller is still awaiting
when its 60-second timeout fires (`CALL_TIMEOUT_SECS = 60`, from
`Duration::from_secs(60)`), `send_message` returns the distinct failure
`"Request timed out"`; a matching response processed afterwards changes
nothing for that caller — no second delivery (the oneshot send against the
dropped receiver is discarded by `let _ = tx.send(..)`) and no crash (the
step is a total function). The two string inequalities record that the
timeout failure is distinct from the other failure kinds returned by
`send_message`. -/
theorem c7_timeout_then_late_response_noop (s : Sys) (id : Nat) (doc : Option Json)
    (h : getStatus s id = some CallerStatus.awaiting) :
    CALL_TIMEOUT_SECS = 60 ∧
    getStatus (applyAction s (SysAction.timeoutFire id)) id =
      some (CallerStatus.done (CallResult.err "Request timed out")) ∧
    getStatus
        (applyAction (applyAction s (SysAction.timeoutFire id)) (SysAction.line doc))
        id =
      some (CallerStatus.done (CallResult.err "Request timed out")) ∧
    ("Request timed out" ≠ "Request cancelled" ∧
      "Request timed out" ≠ "Sidecar not running") := by
  have h2 : getStatus (applyAction s (SysAction.timeoutFire id)) id =
      some (CallerStatus.done (CallResult.err "Request timed out")) := by
    simp only [applyAction, getStatus]
    exact alistLookup_resolveCaller_awaiting s.callers id _ h
  refine ⟨rfl, h2, ?_, by decide, by decide⟩
  simp only [applyAction, getStatus] at h2 ⊢
  exact deliverObs_done _ _ id _ h2

/-- Witness for C7: call 1 times out, then the late response
`{"id":1,"result":"late"}` arrives; the caller's outcome stays
`"Request timed out"`. -/
theorem c7_timeout_then_late_response_noop_witness :
    getStatus
        (applyAction ⟨2, [(1, 1)], [(1, CallerStatus.awaiting)]⟩
          (SysAction.timeoutFire 1)) 1 =
      some (CallerStatus.done (CallResult.err "Request timed out")) ∧
    getStatus
        (applyAction
          (applyAction ⟨2, [(1, 1)], [(1, CallerStatus.awaiting)]⟩
            (SysAction.timeoutFire 1))
          (SysAction.line
            (some (Json.obj [("id", Json.num 1), ("result", Json.str "late")])))) 1 =
      some (CallerStatus.done (CallResult.err "Request timed out")) :=
  ⟨(c7_timeout_then_late_response_noop ⟨2, [(1, 1)], [(1, CallerStatus.awaiting)]⟩ 1
      (some (Json.obj [("id", Json.num 1), ("result", Json.str "late")]))
      (by decide)).2.1,
    (c7_timeout_then_late_response_noop ⟨2, [(1, 1)], [(1, CallerStatus.awaiting)]⟩ 1
      (some (Json.obj [("id", Json.num 1), ("result", Json.str "late")]))
      (by decide)).2.2.1⟩

/-- Counterexample to claim C9 as stated: when the worker's stream closes
(`CommandEvent::Terminated`) while call 1 is pending and its caller
awaiting, the handler leaves the state exactly unchanged — the pending
table is not swept and the caller is not failed with
`TransportUnavailable`. -/
theorem c9_counterexample_no_sweep_on_close :
    applyAction ⟨2, [(1, 1)], [(1, CallerStatus.awaiting)]⟩ SysAction.terminated =
      ⟨2, [(1, 1)], [(1, CallerStatus.awaiting)]⟩ := rfl

/-- Claim C9 (corrected): on stream closure the `Terminated` (and `Error`)
arm only logs — no pending call is failed and the table is not swept. A
caller registered before the closure is not left waiting forever, but only
because its own 60-second timeout later fires, yielding the `Timeout`
failure `"Request timed out"` rather than a `TransportUnavailable`-style
failure. -/
theorem c9_amended_close_only_logs (s : Sys) (id : Nat) :
    applyAction s SysAction.terminated = s ∧
    (getStatus s id = some CallerStatus.awaiting →
      getStatus (applyAction s (SysAction.timeoutFire id)) id =
        some (CallerStatus.done (CallResult.err "Request timed out"))) := by
  refine ⟨rfl, fun h => ?_⟩
  simp only [applyAction, getStatus]
  exact alistLookup_resolveCaller_awaiting s.callers id _ h

/-- Witness for the amended C9 at a concrete state with one pending call. -/
theorem c9_amended_close_only_logs_witness :
    applyAction ⟨2, [(1, 1)], [(1, CallerStatus.awaiting)]⟩ SysAction.terminated =
      ⟨2, [(1, 1)], [(1, CallerStatus.awaiting)]⟩ ∧
    getStatus
        (applyAction ⟨2, [(1, 1)], [(1, CallerStatus.awaiting)]⟩
          (SysAction.timeoutFire 1)) 1 =
      some (CallerStatus.done (CallResult.err "Request timed out")) :=
  ⟨(c9_amended_close_only_logs ⟨2, [(1, 1)], [(1, CallerStatus.awaiting)]⟩ 1).1,
    (c9_amended_close_only_logs ⟨2, [(1, 1)], [(1, CallerStatus.awaiting)]⟩ 1).2
      (by decide)⟩

/-- Counterexample to claim C1 as stated: in the complete execution
`[callStart, timeoutFire 1]` the call times out — the timeout path has
fully run and returned `"Request timed out"` to the caller — yet the
pending entry `(1, 1)` is still in the table: the entry was removed by
neither response delivery nor the timeout path, refuting both "removed by
the timeout path" and "never neither". -/
theorem c1_counterexample_timeout_leaves_entry :
    (runTrace [SysAction.callStart none true none, SysAction.timeoutFire 1]).table =
      [(1, 1)] ∧
    getStatus (runTrace [SysAction.callStart none true none, SysAction.timeoutFire 1])
        1 =
      some (CallerStatus.done (CallResult.err "Request timed out")) := by
  decide

/-- Claim C1 (corrected): along every finite interleaving, the pending
table never holds two entries with the same id (keys are pairwise
distinct); the timeout path and stream termination never remove a table
entry; and whenever a step removes an entry it is a line-processing step
(response delivery in `handle_sidecar_output`) — so entries are removed at
most once and only by response delivery, and an entry whose matching
response never arrives is never removed. -/
theorem c1_amended_removal_only_by_response :
    (∀ acts : List SysAction, ((runTrace acts).table.map Prod.fst).Nodup) ∧
    (∀ (s : Sys) (id : Nat), (applyAction s (SysAction.timeoutFire id)).table = s.table) ∧
    (∀ s : Sys, (applyAction s SysAction.terminated).table = s.table) ∧
    ∀ (s : Sys) (a : SysAction) (p : Nat × Nat),
      p ∈ s.table → p ∉ (applyAction s a).table → ∃ doc, a = SysAction.line doc :=
  ⟨fun acts => (sysInv_runTrace acts).1, fun _ _ => rfl, fun _ => rfl,
    table_entry_removed_only_by_line⟩

/-- Witness for the amended C1: delivering the response for id 1 is a line
step that removes the entry. -/
theorem c1_amended_removal_only_by_response_witness :
    ∃ doc,
      SysAction.line (some (Json.obj [("id", Json.num 1), ("result", Json.str "ok")])) =
        SysAction.line doc :=
  c1_amended_removal_only_by_response.2.2.2
    ⟨2, [(1, 1)], [(1, CallerStatus.awaiting)]⟩
    (SysAction.line (some (Json.obj [("id", Json.num 1), ("result", Json.str "ok")])))
    (1, 1) (by decide) (by decide)

/-- Counterexample to claim C3 as stated: the byte chunks `[0xC3]` and
`[0xA9, 0x0A]` concatenate to the UTF-8 encoding of the single
newline-terminated line `"é"` (`é` is the two bytes `0xC3 0xA9`), but the
split point falls inside the character, so each chunk fails UTF-8
validation and is dropped whole: the demultiplexer emits no line at all
instead of the required `["é"]`. -/
theorem c3_counterexample_split_inside_character :
    List.flatten [[0xC3], [0xA9, 10]] = [0xC3, 0xA9, 10] ∧
    utf8Decode [0xC3, 0xA9, 10] = some ['é', '\n'] ∧
    runDemux [[0xC3], [0xA9, 10]] = ([], []) := by
  decide

/-- Claim C3 (corrected): chunk-boundary invariance holds provided every
chunk is itself valid UTF-8 (the split points fall on character
boundaries). If the chunks decode to texts whose concatenation is
`L1\n L2\n ... Ln\n` with no `Li` containing a newline, then the
demultiplexer emits exactly `L1, ..., Ln` in order (each with its
terminator stripped, and a trailing carriage return stripped when
present), regardless of where the split points fall, and the final
residual buffer is empty — unterminated content is never emitted. -/
theorem c3_amended_chunk_boundary_invariance (chunks : List (List Nat))
    (decoded lines : List (List Char))
    (hdec : chunks.map utf8Decode = decoded.map some)
    (hcat : decoded.flatten = joinLines lines)
    (hnl : ∀ l ∈ lines, '\n' ∉ l) :
    runDemux chunks = (lines.map stripCRl, []) := by
  rw [runDemux, demuxFold_eq chunks decoded hdec [] (by simp) []]
  simp [hcat, splitNL_joinLines lines hnl]

/-- Witness for the amended C3: `"hi\n"` followed by `"\n"` yields the
lines `"hi"` and `""` with an empty final buffer. -/
theorem c3_amended_chunk_boundary_invariance_witness :
    runDemux [[104, 105, 10], [10]] = ([['h', 'i'], []], []) :=
  c3_amended_chunk_boundary_invariance [[104, 105, 10], [10]]
    [['h', 'i', '\n'], ['\n']] [['h', 'i'], []]
    (by decide) (by decide) (by decide)
